import Mathlib

/-!
Verification of the Trust Resolution Engine of the trust-uri-validator
browser extension (src/src/xpoc-lib.ts, src/src/background.ts and the
session-storage helpers).

The TypeScript code is shallowly embedded: every JavaScript string
operation used by the source (trim, split, startsWith, includes,
first-occurrence replace, toLowerCase) is modelled as an executable
function over the character list of a Lean String, and the WHATWG URL
accessors used by the source (hostname, origin, pathname) are modelled
for absolute http(s) URLs without userinfo or port, which is the shape
of every URL the engine handles.  Network effects (the trust.txt fetch
and the delegated-validator POST) are passed in as explicit outcome
parameters, and the platform registry of the external xpoc-framework
library is an abstract structure of function fields.
-/

/-- JavaScript String.prototype.trim over a character list. -/
def chTrim (l : List Char) : List Char :=
  ((l.dropWhile Char.isWhitespace).reverse.dropWhile Char.isWhitespace).reverse

/-- JavaScript String.prototype.trim. -/
def jsTrim (s : String) : String := ⟨chTrim s.data⟩

/-- JavaScript String.prototype.split with a single-character separator:
splits at every occurrence, keeping empty segments. -/
def chSplit (sep : Char) : List Char → List Char → List (List Char)
  | [], acc => [acc.reverse]
  | c :: rest, acc =>
    if c = sep then acc.reverse :: chSplit sep rest []
    else chSplit sep rest (c :: acc)

/-- JavaScript String.prototype.split at a separator character. -/
def jsSplit (sep : Char) (s : String) : List String :=
  (chSplit sep s.data []).map (fun l => ⟨l⟩)

/-- JavaScript String.prototype.includes: substring containment. -/
def chContains (hay needle : List Char) : Bool :=
  match hay with
  | [] => needle.isEmpty
  | c :: t => needle.isPrefixOf (c :: t) || chContains t needle

/-- JavaScript String.prototype.replace with a plain-string pattern and
empty replacement: removes the first occurrence of the pattern. -/
def chRemoveFirst (pat : List Char) : List Char → List Char
  | [] => []
  | c :: rest =>
    if pat.isPrefixOf (c :: rest) then (c :: rest).drop pat.length
    else c :: chRemoveFirst pat rest

/-- JavaScript String.prototype.toLowerCase (ASCII). -/
def chLower (l : List Char) : List Char := l.map Char.toLower

/-- JavaScript String.prototype.toLowerCase. -/
def jsLower (s : String) : String := ⟨chLower s.data⟩

/-- Drops characters up to and including the first occurrence of the
pattern; auxiliary for the URL model. -/
def chDropThrough (pat : List Char) : List Char → List Char
  | [] => []
  | c :: rest =>
    if pat.isPrefixOf (c :: rest) then (c :: rest).drop pat.length
    else chDropThrough pat rest

/-- Removes one trailing occurrence of the given character, as the
regexes /!$/ and /\x2f$/ used by the source do. -/
def chStripLast (c : Char) (l : List Char) : List Char :=
  if l.getLast? = some c then l.dropLast else l

/-- Model of new URL(url).hostname for an absolute http(s) URL without
userinfo or port: the text between the scheme separator and the first
slash, question mark or hash. -/
def urlHostL (url : String) : List Char :=
  (chDropThrough "://".data url.data).takeWhile
    (fun c => !(c == '/' || c == '?' || c == '#'))

/-- Model of new URL(url).hostname. -/
def urlHostname (url : String) : String := ⟨urlHostL url⟩

/-- Model of the scheme part of new URL(url). -/
def urlSchemeL (url : String) : List Char :=
  url.data.takeWhile (fun c => !(c == ':'))

/-- Model of new URL(url).pathname: the part after the host up to the
query or fragment, or a single slash when that part is empty. -/
def urlPathnameL (url : String) : List Char :=
  let rest := chDropThrough "://".data url.data
  let after := rest.drop (rest.takeWhile
    (fun c => !(c == '/' || c == '?' || c == '#'))).length
  let p := after.takeWhile (fun c => !(c == '?' || c == '#'))
  if p.isEmpty then "/".data else p

/-- getBaseURL from xpoc-lib.ts: origin plus pathname (the query-string
accumulator in the source is always empty) with one trailing slash
removed. -/
def getBaseURL (url : String) : String :=
  ⟨chStripLast '/' (urlSchemeL url ++ "://".data ++ urlHostL url ++ urlPathnameL url)⟩

/-- getUrlFromUri from xpoc-lib.ts: replace a leading trust scheme by
https, remove a trailing exclamation mark, remove a trailing slash, and
append the well-known path. -/
def getUrlFromUriL (l : List Char) : List Char :=
  let s1 := if "trust://".data.isPrefixOf l then "https://".data ++ l.drop 8 else l
  chStripLast '/' (chStripLast '!' s1) ++ "/.well-known/trust.txt".data

/-- getUrlFromUri from xpoc-lib.ts at the String level. -/
def getUrlFromUri (uri : String) : String := ⟨getUrlFromUriL uri.data⟩

/-- The hostname transformation applied to the page URL by
lookupTrustUri: hostname.replace applied to the string pattern removes
the first occurrence of www. wherever it is. -/
def stripWwwFirst (s : String) : String := ⟨chRemoveFirst "www.".data s.data⟩

/-- A parsed trust.txt file, from xpoc-lib.ts. -/
structure TrustTxtFile where
  member : List String
  belongto : List String
  control : List String
  controlledby : List String
  social : List String
  vendor : List String
  customer : List String
  disclosure : List String
  contact : List String
  datatrainingallowed : Bool
deriving DecidableEq

/-- The fresh record parseTrustTxt starts from. -/
def initTrustTxtFile : TrustTxtFile :=
  ⟨[], [], [], [], [], [], [], [], [], false⟩

/-- The switch statement of parseTrustTxt: dispatch a cleaned variable
name and trimmed value into the record; unknown names only warn. -/
def dispatchVar (acc : TrustTxtFile) (cleanedVariable trimmedValue : String) : TrustTxtFile :=
  if cleanedVariable == "member" then { acc with member := acc.member ++ [trimmedValue] }
  else if cleanedVariable == "belongto" then { acc with belongto := acc.belongto ++ [trimmedValue] }
  else if cleanedVariable == "control" then { acc with control := acc.control ++ [trimmedValue] }
  else if cleanedVariable == "controlledby" then { acc with controlledby := acc.controlledby ++ [trimmedValue] }
  else if cleanedVariable == "social" then { acc with social := acc.social ++ [trimmedValue] }
  else if cleanedVariable == "vendor" then { acc with vendor := acc.vendor ++ [trimmedValue] }
  else if cleanedVariable == "customer" then { acc with customer := acc.customer ++ [trimmedValue] }
  else if cleanedVariable == "disclosure" then { acc with disclosure := acc.disclosure ++ [trimmedValue] }
  else if cleanedVariable == "contact" then { acc with contact := acc.contact ++ [trimmedValue] }
  else if cleanedVariable == "datatrainingallowed" then
    { acc with datatrainingallowed := jsLower trimmedValue == "yes" }
  else acc

/-- One iteration of the parseTrustTxt loop: trim the line, skip blank
lines and comments, destructure the first two split components as in
const [variable, value] = cleanedLine.split, skip falsy parts, and
dispatch. -/
def processLine (acc : TrustTxtFile) (line : String) : TrustTxtFile :=
  let cleanedLine := jsTrim line
  if cleanedLine == "" || "#".data.isPrefixOf cleanedLine.data then acc
  else
    match jsSplit '=' cleanedLine with
    | varPart :: valPart :: _ =>
      if varPart == "" || valPart == "" then acc
      else dispatchVar acc (jsLower (jsTrim varPart)) (jsTrim valPart)
    | _ => acc

/-- parseTrustTxt from xpoc-lib.ts: fold the line loop over the lines of
the input. -/
def parseTrustTxt (trustTxtContent : String) : TrustTxtFile :=
  (jsSplit '\n' trustTxtContent).foldl processLine initTrustTxtFile

/-- The canonicalized account record returned by the platform
canonicalizer of the external xpoc-framework library; only its account
field is consumed by the source. -/
structure CanonicalAccount where
  account : String

/-- A platform object of the external xpoc-framework registry, reduced
to the three capabilities the source uses. -/
structure Platform where
  DisplayName : String
  isValidAccountUrl : String → Bool
  canonicalizeAccountUrl : String → CanonicalAccount

/-- The Platforms registry of the external xpoc-framework library,
reduced to the three entry points the source calls. -/
structure PlatformRegistry where
  isSupportedAccountUrl : String → Bool
  getPlatformFromAccountUrl : String → Option Platform
  getPlatform : String → Platform

/-- The Account payload of a positive lookup result. -/
structure AccountT where
  account : String
  platform : String
deriving DecidableEq

/-- One entry of the delegated-validator response list. -/
structure ValEntry where
  status : String
  domain : String
  message : String
deriving DecidableEq

/-- lookupTrustUriResult from xpoc-lib.ts: the closed four-variant
result type. -/
inductive LookupResult where
  | account (name baseurl version : String) (acct : AccountT)
  | multiple (list : List ValEntry)
  | notFound (baseurl : String)
  | error (baseurl message : String)
deriving DecidableEq

/-- The sentinel entry the same-domain branch pre-seeds its list with. -/
def sentinelEntry : ValEntry := ⟨"", "", ""⟩

/-- JavaScript array index assignment as used by the validator loop:
overwrite an existing slot or append when the index equals the length
(the loop counter never exceeds the length). -/
def jsSetIdx (l : List ValEntry) (i : Nat) (x : ValEntry) : List ValEntry :=
  if i < l.length then l.set i x else l ++ [x]

/-- The for loop of the same-domain branch: write the response entries
over the seeded list at successive indices. -/
def runValidatorLoop (seed : List ValEntry) (entries : List ValEntry) : List ValEntry :=
  (entries.foldl (fun acc e => (jsSetIdx acc.1 acc.2 e, acc.2 + 1)) (seed, 0)).1

/-- downloadTrustTxt from xpoc-lib.ts with the network outcome of
fetchText passed in explicitly: reject URIs without the trust scheme,
propagate fetch errors, parse on success. -/
def downloadTrustTxt (fetchOutcome : Except String String) (trustUri : String) :
    Except String TrustTxtFile :=
  if "trust://".data.isPrefixOf trustUri.data then
    match fetchOutcome with
    | .error e => .error e
    | .ok content => .ok (parseTrustTxt content)
  else
    .error ("Invalid trust URI: " ++ trustUri)

/-- The predicate of the social find call in the cross-domain branch of
lookupTrustUri, over the already-rebased tab URL. -/
def socialMatches (reg : PlatformRegistry) (tabUrl2 accountUrl : String) : Bool :=
  let platformOpt :=
    if reg.isSupportedAccountUrl accountUrl then reg.getPlatformFromAccountUrl accountUrl
    else none
  match platformOpt with
  | some platform =>
    if platform.isValidAccountUrl tabUrl2 then
      jsLower (platform.canonicalizeAccountUrl tabUrl2).account ==
        jsLower (platform.canonicalizeAccountUrl accountUrl).account
    else
      tabUrl2 == getBaseURL accountUrl
  | none => tabUrl2 == getBaseURL accountUrl

/-- lookupTrustUri from xpoc-lib.ts, with the trust.txt fetch outcome
and the delegated-validator POST outcome (none models a network or
status failure) passed in explicitly. -/
def lookupTrustUri (reg : PlatformRegistry) (fetchOutcome : Except String String)
    (validatorOutcome : Option (List ValEntry)) (tabUrl trustUri : String) : LookupResult :=
  match downloadTrustTxt fetchOutcome trustUri with
  | .error msg => .error trustUri ("Error fetching trust.txt file: " ++ msg)
  | .ok trustTxtFile =>
    let tabDomain := stripWwwFirst (urlHostname tabUrl)
    let trustDomain := urlHostname (getUrlFromUri trustUri)
    if tabDomain ≠ trustDomain then
      let tabUrl2 := getBaseURL tabUrl
      match trustTxtFile.social.find? (socialMatches reg tabUrl2) with
      | some matchingAccountUrl =>
        let platform :=
          match reg.getPlatformFromAccountUrl matchingAccountUrl with
          | some p => p.DisplayName
          | none => ""
        let account :=
          if platform ≠ "" then
            ((reg.getPlatform platform).canonicalizeAccountUrl matchingAccountUrl).account
          else matchingAccountUrl
        let domain := urlHostname (getUrlFromUri trustUri)
        .account domain domain "trust.txt-draft00" ⟨account, platform⟩
      | none =>
        if trustTxtFile.member.any (fun m => chContains m.data tabDomain.data) then
          .account tabDomain (getUrlFromUri trustUri) "trust.txt-draft00"
            ⟨tabDomain, "member"⟩
        else
          .notFound trustUri
    else
      .multiple (runValidatorLoop [sentinelEntry] (validatorOutcome.getD []))

/-- Icon path constant from background.ts. -/
def CHECKMARK_TYPE : String := "icons/valid128x128.png"

/-- Icon path constant from background.ts. -/
def INVALID_TYPE : String := "icons/invalid128x128.png"

/-- Icon path constant from background.ts. -/
def WARNING_TYPE : String := "icons/warning128x128.png"

/-- One iteration of the status-flag loop of getIconType: the switch on
item.status sets the found, notfound and err flags. -/
def statusStep (f : Bool × Bool × Bool) (item : ValEntry) : Bool × Bool × Bool :=
  if item.status == "found" then (true, f.2.1, f.2.2)
  else if item.status == "not found" then (f.1, true, f.2.2)
  else if item.status == "error" then (f.1, f.2.1, true)
  else f

/-- The flag-collecting loop of getIconType. -/
def statusFlags (list : List ValEntry) : Bool × Bool × Bool :=
  list.foldl statusStep (false, false, false)

/-- getIconType from background.ts: the three-way severity reduction of
a delegated-validator result list. -/
def getIconType (list : List ValEntry) : String :=
  let f := statusFlags list
  if !f.1 then INVALID_TYPE
  else if !f.2.1 && !f.2.2 then CHECKMARK_TYPE
  else WARNING_TYPE

/-- The per-page map stored under one page URL in the session store. -/
def TrustResultMap : Type := String → Option LookupResult

/-- The trustResults object of the session store: page URL to per-page
map, absence of a page key being observable. -/
def TrustResultSet : Type := String → Option TrustResultMap

/-- storeTrustResult from background.ts, restricted to its storage
effect: read the whole map, default an absent per-page object, set the
nested key, write the whole map back. -/
def storeTrustResult (s : TrustResultSet) (url trustUri : String)
    (result : LookupResult) : TrustResultSet :=
  let pageMap : TrustResultMap :=
    match s url with
    | some m => m
    | none => fun _ => none
  let pageMap2 : TrustResultMap :=
    fun t => if t = trustUri then some result else pageMap t
  fun u => if u = url then some pageMap2 else s u

/-- Reads one stored entry; none both when the page key and when the
nested key is absent. -/
def getTrustResult (s : TrustResultSet) (url trustUri : String) : Option LookupResult :=
  match s url with
  | some m => m trustUri
  | none => none

/-- Discriminator for the multiple variant. -/
def isMultiple : LookupResult → Bool
  | .multiple _ => true
  | _ => false

/-- Defined from the words of the spec, for comparison with the code:
strip www. from a hostname only when it is the leading prefix. -/
def stripLeadingWwwSpec (h : String) : String :=
  if "www.".data.isPrefixOf h.data then ⟨h.data.drop 4⟩ else h

/-- Defined from the words of the claim about the parser, amended to the
splitting the code performs: a line contributes nothing when it is
blank after trimming, starts with a hash, or is missing the part before
the first equals sign or the part between the first and second one. -/
def skippedLine (line : String) : Bool :=
  let c := jsTrim line
  c == "" || "#".data.isPrefixOf c.data ||
    (match jsSplit '=' c with
     | varPart :: valPart :: _ => varPart == "" || valPart == ""
     | _ => true)

/-- Defined from the words of the claim about the parser: a line that
parses into a variable and value but whose variable name is none of the
ten known ones. -/
def unknownVarLine (line : String) : Bool :=
  let c := jsTrim line
  !(c == "") && !("#".data.isPrefixOf c.data) &&
    (match jsSplit '=' c with
     | varPart :: valPart :: _ =>
       let v := jsLower (jsTrim varPart)
       !(varPart == "") && !(valPart == "") &&
         !(v == "member") && !(v == "belongto") && !(v == "control") &&
         !(v == "controlledby") && !(v == "social") && !(v == "vendor") &&
         !(v == "customer") && !(v == "disclosure") && !(v == "contact") &&
         !(v == "datatrainingallowed")
     | _ => false)

/-- A registry that recognizes no platform, for concrete scenarios whose
manifests carry no social entries of a known platform. -/
def emptyReg : PlatformRegistry :=
  ⟨fun _ => false, fun _ => none, fun _ => ⟨"", fun _ => false, fun _ => ⟨""⟩⟩⟩

/-- A one-platform registry used by concrete witnesses: account URLs
under a fixed host canonicalize to the path after the host. -/
def twitterPlatform : Platform :=
  ⟨"Twitter",
   fun u => "https://twitter.com/".data.isPrefixOf u.data,
   fun u => ⟨⟨u.data.drop 20⟩⟩⟩

/-- The registry holding only the test platform. -/
def testReg : PlatformRegistry :=
  ⟨fun u => "https://twitter.com/".data.isPrefixOf u.data,
   fun u => if "https://twitter.com/".data.isPrefixOf u.data then some twitterPlatform else none,
   fun _ => twitterPlatform⟩

/-- Folding a list in which one inserted element is inert for the step
function gives the same value as folding without it. -/
theorem foldl_insert_inert {α β : Type} (f : β → α → β) (pre post : List α) (l : α)
    (hl : ∀ b, f b l = b) (init : β) :
    (pre ++ l :: post).foldl f init = (pre ++ post).foldl f init := by
  induction pre generalizing init with
  | nil => simp [List.foldl_cons, hl]
  | cons x xs ih => simpa [List.foldl_cons] using ih (f init x)

/-- A line satisfying skippedLine is inert for the parser loop. -/
theorem processLine_skipped (acc : TrustTxtFile) (l : String)
    (h : skippedLine l = true) : processLine acc l = acc := by
  unfold skippedLine at h
  unfold processLine
  rcases h1 : (jsTrim l == "" || "#".data.isPrefixOf (jsTrim l).data) with _ | _
  · simp only [h1, Bool.false_eq_true, if_false]
    rcases h2 : jsSplit '=' (jsTrim l) with _ | ⟨v, _ | ⟨w, rest⟩⟩
    · rfl
    · rfl
    · simp only [h1, h2, Bool.false_or] at h
      simp [h]
  · simp [h1]

/-- A line satisfying unknownVarLine is inert for the parser loop. -/
theorem processLine_unknown (acc : TrustTxtFile) (l : String)
    (h : unknownVarLine l = true) : processLine acc l = acc := by
  unfold unknownVarLine at h
  unfold processLine
  rcases h1 : (jsTrim l == "" || "#".data.isPrefixOf (jsTrim l).data) with _ | _
  · simp only [h1, Bool.false_eq_true, if_false]
    rcases h2 : jsSplit '=' (jsTrim l) with _ | ⟨v, _ | ⟨w, rest⟩⟩
    · rfl
    · rfl
    · simp only [h2, Bool.and_eq_true, Bool.not_eq_true'] at h
      unfold dispatchVar
      simp_all
  · simp [h1]

/-- Writing entries at successive indices starting at the length of the
accumulator appends them all. -/
theorem validatorLoop_from_length (entries acc : List ValEntry) :
    (entries.foldl (fun a e => (jsSetIdx a.1 a.2 e, a.2 + 1)) (acc, acc.length)).1 =
      acc ++ entries := by
  induction entries generalizing acc with
  | nil => simp
  | cons e es ih =>
    have hset : jsSetIdx acc acc.length e = acc ++ [e] := by
      simp [jsSetIdx]
    have hlen : (acc ++ [e]).length = acc.length + 1 := by simp
    calc (List.foldl (fun a e => (jsSetIdx a.1 a.2 e, a.2 + 1)) (acc, acc.length) (e :: es)).1
        = (List.foldl (fun a e => (jsSetIdx a.1 a.2 e, a.2 + 1)) (acc ++ [e], acc.length + 1) es).1 := by
          simp [List.foldl_cons, hset]
      _ = acc ++ e :: es := by
          rw [← hlen, ih (acc ++ [e])]
          simp

/-- The seeded validator loop: an empty response leaves the sentinel
seed, a nonempty response replaces the list entirely. -/
theorem runValidatorLoop_seeded (s : ValEntry) (entries : List ValEntry) :
    runValidatorLoop [s] entries =
      match entries with
      | [] => [s]
      | e :: es => e :: es := by
  cases entries with
  | nil => rfl
  | cons e es =>
    unfold runValidatorLoop
    have hset : jsSetIdx [s] 0 e = [e] := by simp [jsSetIdx]
    calc (List.foldl (fun a x => (jsSetIdx a.1 a.2 x, a.2 + 1)) ([s], 0) (e :: es)).1
        = (List.foldl (fun a x => (jsSetIdx a.1 a.2 x, a.2 + 1)) ([e], [e].length) es).1 := by
          simp [List.foldl_cons, hset]
      _ = e :: es := by rw [validatorLoop_from_length]; simp

/-- find? returns the element at the first index satisfying the
predicate. -/
theorem find?_first {α : Type} (p : α → Bool) (l : List α) (i : Nat) (hi : i < l.length)
    (hp : p (l.get ⟨i, hi⟩) = true)
    (hfirst : ∀ j (hj : j < i), p (l.get ⟨j, Nat.lt_trans hj hi⟩) = false) :
    l.find? p = some (l.get ⟨i, hi⟩) := by
  induction l generalizing i with
  | nil => exact absurd hi (Nat.not_lt_zero i)
  | cons x xs ih =>
    cases i with
    | zero =>
      simp only [List.get] at hp
      simp [List.find?, hp]
    | succ n =>
      have hx : p x = false := hfirst 0 (Nat.succ_pos n)
      simp only [List.get] at hp ⊢
      rw [List.find?_cons, hx]
      exact ih n (Nat.lt_of_succ_lt_succ hi) hp
        (fun j hj => hfirst (j + 1) (Nat.succ_lt_succ hj))

/-- One step of the flag loop sets each flag exactly when the status is
the corresponding literal. -/
theorem statusStep_eq (f : Bool × Bool × Bool) (item : ValEntry) :
    statusStep f item =
      (f.1 || item.status == "found",
       f.2.1 || item.status == "not found",
       f.2.2 || item.status == "error") := by
  unfold statusStep
  rcases h1 : (item.status == "found") with _ | _
  · rcases h2 : (item.status == "not found") with _ | _
    · rcases h3 : (item.status == "error") with _ | _
      · simp [h1, h2, h3]
      · simp [h1, h2, h3]
    · simp only [beq_iff_eq] at h2
      have h3 : (item.status == "error") = false := by simp [h2]
      simp [h1, h2, h3]
  · simp only [beq_iff_eq] at h1
    have h2 : (item.status == "not found") = false := by simp [h1]
    have h3 : (item.status == "error") = false := by simp [h1]
    simp [h1, h2, h3]

/-- The flag loop computes the three any-scans of the claim. -/
theorem statusFlags_eq (l : List ValEntry) :
    statusFlags l =
      (l.any (fun e => e.status == "found"),
       l.any (fun e => e.status == "not found"),
       l.any (fun e => e.status == "error")) := by
  have haux : ∀ (l : List ValEntry) (f : Bool × Bool × Bool),
      l.foldl statusStep f =
        (f.1 || l.any (fun e => e.status == "found"),
         f.2.1 || l.any (fun e => e.status == "not found"),
         f.2.2 || l.any (fun e => e.status == "error")) := by
    intro l
    induction l with
    | nil => intro f; simp
    | cons x xs ih =>
      intro f
      rw [List.foldl_cons, ih, statusStep_eq]
      simp [List.any_cons, Bool.or_assoc]
  have h := haux l (false, false, false)
  simpa [statusFlags] using h

/-- Claim C5: the severity reducer yields Invalid when no record has
status found; Checkmark when some record has status found and none has
not found or error; Warning when found occurs together with not found
or error; appending any not found or error record to a
Checkmark-classified list gives Warning, and removing all found records
gives Invalid. -/
theorem getIconType_severity (l : List ValEntry) :
    (getIconType l =
      if l.any (fun e => e.status == "found") then
        (if l.any (fun e => e.status == "not found") || l.any (fun e => e.status == "error")
         then WARNING_TYPE else CHECKMARK_TYPE)
      else INVALID_TYPE)
    ∧ (∀ e : ValEntry, getIconType l = CHECKMARK_TYPE →
        e.status = "not found" ∨ e.status = "error" →
        getIconType (l ++ [e]) = WARNING_TYPE)
    ∧ getIconType (l.filter (fun e => !(e.status == "found"))) = INVALID_TYPE := by
  have hchar : ∀ m : List ValEntry, getIconType m =
      if m.any (fun e => e.status == "found") then
        (if m.any (fun e => e.status == "not found") || m.any (fun e => e.status == "error")
         then WARNING_TYPE else CHECKMARK_TYPE)
      else INVALID_TYPE := by
    intro m
    unfold getIconType
    rw [statusFlags_eq]
    rcases h1 : m.any (fun e => e.status == "found") with _ | _
    · simp [h1]
    · rcases h2 : m.any (fun e => e.status == "not found") with _ | _
      · rcases h3 : m.any (fun e => e.status == "error") with _ | _
        · simp [h1, h2, h3]
        · simp [h1, h2, h3]
      · simp [h1, h2]
  refine ⟨hchar l, ?_, ?_⟩
  · intro e hcheck he
    have h1 : l.any (fun e => e.status == "found") = true := by
      by_contra hc
      rw [hchar l] at hcheck
      simp only [Bool.not_eq_true] at hc
      rw [hc] at hcheck
      simp only [Bool.false_eq_true, if_false] at hcheck
      exact absurd hcheck (by decide)
    have h2 : ([e].any (fun x => x.status == "not found") ||
        [e].any (fun x => x.status == "error")) = true := by
      rcases he with he | he <;> simp [List.any_cons, he]
    rw [hchar (l ++ [e])]
    simp only [List.any_append, h1, Bool.true_or, if_true]
    rcases h3 : [e].any (fun x => x.status == "not found") with _ | _
    · rcases h4 : [e].any (fun x => x.status == "error") with _ | _
      · rw [h3, h4] at h2; exact absurd h2 (by simp)
      · simp [h3, h4]
    · simp [h3]
  · rw [hchar]
    have h1 : (l.filter (fun e => !(e.status == "found"))).any
        (fun e => e.status == "found") = false := by
      rw [Bool.eq_false_iff]
      intro hc
      rw [List.any_eq_true] at hc
      obtain ⟨x, hx, hpx⟩ := hc
      rw [List.mem_filter] at hx
      have h2 := hx.2
      rw [hpx] at h2
      exact absurd h2 (by decide)
    simp [h1]

/-- Witness for claim C5 at a concrete status list. -/
theorem getIconType_severity_witness :
    getIconType [⟨"found", "d", "m"⟩] = CHECKMARK_TYPE ∧
    getIconType [⟨"found", "d", "m"⟩, ⟨"error", "d", "m"⟩] = WARNING_TYPE := by
  have h := getIconType_severity [⟨"found", "d", "m"⟩]
  have hc : getIconType [⟨"found", "d", "m"⟩] = CHECKMARK_TYPE := by
    rw [h.1]; decide
  exact ⟨hc, h.2.1 ⟨"error", "d", "m"⟩ hc (Or.inr rfl)⟩

/-- Claim C9: storing a result is a read-modify-write that sets exactly
the nested key for the given page URL and Trust URI and leaves every
entry under every other key pair unchanged. -/
theorem storeTrustResult_spec (s : TrustResultSet) (url trustUri : String)
    (result : LookupResult) :
    getTrustResult (storeTrustResult s url trustUri result) url trustUri = some result
    ∧ ∀ u t : String, u ≠ url ∨ t ≠ trustUri →
        getTrustResult (storeTrustResult s url trustUri result) u t = getTrustResult s u t := by
  constructor
  · simp [getTrustResult, storeTrustResult]
  · intro u t hut
    by_cases hu : u = url
    · have ht : t ≠ trustUri := by
        rcases hut with h | h
        · exact absurd hu h
        · exact h
      subst hu
      simp only [getTrustResult, storeTrustResult, if_pos rfl, if_neg ht]
      cases s u <;> rfl
    · simp [getTrustResult, storeTrustResult, hu]

/-- Witness for claim C9 at concrete keys over the empty store. -/
theorem storeTrustResult_spec_witness :
    getTrustResult (storeTrustResult (fun _ => none) "https://p.example/a" "trust://x.example!"
        (LookupResult.notFound "trust://x.example!")) "https://p.example/a" "trust://x.example!" =
      some (LookupResult.notFound "trust://x.example!")
    ∧ getTrustResult (storeTrustResult (fun _ => none) "https://p.example/a" "trust://x.example!"
        (LookupResult.notFound "trust://x.example!")) "https://q.example/b" "trust://x.example!" =
      getTrustResult (fun _ => none) "https://q.example/b" "trust://x.example!" := by
  have h := storeTrustResult_spec (fun _ => none) "https://p.example/a" "trust://x.example!"
    (LookupResult.notFound "trust://x.example!")
  exact ⟨h.1, h.2 "https://q.example/b" "trust://x.example!" (Or.inl (by decide))⟩

/-- Claim C6 (amended): blank lines, comment lines, and lines whose
split at equals signs is missing the part before the first one or the
part between the first and second one contribute nothing to the parse;
splitting is at the first equals sign, not restricted to lines with
exactly one. -/
theorem parseTrustTxt_skips (pre post : List String) (l : String)
    (h : skippedLine l = true) :
    (pre ++ l :: post).foldl processLine initTrustTxtFile =
      (pre ++ post).foldl processLine initTrustTxtFile :=
  foldl_insert_inert processLine pre post l (fun b => processLine_skipped b l h)
    initTrustTxtFile

/-- Witness for claim C6: a comment line inserted between two entry
lines changes nothing. -/
theorem parseTrustTxt_skips_witness :
    (["member=a"] ++ "# note" :: ["social=https://x.example/y"]).foldl processLine
        initTrustTxtFile =
      (["member=a"] ++ ["social=https://x.example/y"]).foldl processLine initTrustTxtFile :=
  parseTrustTxt_skips ["member=a"] ["social=https://x.example/y"] "# note" (by decide)

/-- Counterexample for claim C6 as stated: a line holding two equals
signs is not skipped; it contributes the text between the first and
second equals sign. -/
theorem parseTrustTxt_twoEq_counterexample :
    (parseTrustTxt "member=a=b").member = ["a"] ∧
    (("member=a=b").data.filter (fun c => c == '=')).length = 2 := by decide

/-- Claim C7: the parser is total; a line with an unknown variable name
contributes nothing and does not abort the parse of the surrounding
lines, and a fully malformed input still yields the complete empty
record. -/
theorem parseTrustTxt_total_unknown (pre post : List String) (l : String)
    (h : unknownVarLine l = true) :
    ((pre ++ l :: post).foldl processLine initTrustTxtFile =
      (pre ++ post).foldl processLine initTrustTxtFile)
    ∧ parseTrustTxt "mystery=value\n# comment\nnot-a-pair\n=orphan" = initTrustTxtFile :=
  ⟨foldl_insert_inert processLine pre post l (fun b => processLine_unknown b l h)
      initTrustTxtFile,
   by decide⟩

/-- Witness for claim C7: an unknown-variable line among known lines is
dropped and the malformed document parses to the empty record. -/
theorem parseTrustTxt_total_unknown_witness :
    ((["member=a"] ++ "mystery=value" :: ["social=https://x.example/y"]).foldl processLine
        initTrustTxtFile =
      (["member=a"] ++ ["social=https://x.example/y"]).foldl processLine initTrustTxtFile)
    ∧ parseTrustTxt "mystery=value\n# comment\nnot-a-pair\n=orphan" = initTrustTxtFile :=
  parseTrustTxt_total_unknown ["member=a"] ["social=https://x.example/y"] "mystery=value"
    (by decide)

/-- Claim C1 (amended): in a cross-domain resolution where no social
entry matched, if some member entry's text contains the page domain as
a substring the result is the member Account; the concrete scenario is
a member entry that contains the page domain, such as member equal to
the page domain itself, since containment is tested on the entry text. -/
theorem lookup_member_branch
    (reg : PlatformRegistry) (fo : Except String String) (vo : Option (List ValEntry))
    (tabUrl trustUri : String) (ttf : TrustTxtFile)
    (hdl : downloadTrustTxt fo trustUri = .ok ttf)
    (hdom : stripWwwFirst (urlHostname tabUrl) ≠ urlHostname (getUrlFromUri trustUri))
    (hsoc : ttf.social.find? (socialMatches reg (getBaseURL tabUrl)) = none)
    (hmem : ttf.member.any
      (fun m => chContains m.data (stripWwwFirst (urlHostname tabUrl)).data) = true) :
    lookupTrustUri reg fo vo tabUrl trustUri =
      .account (stripWwwFirst (urlHostname tabUrl)) (getUrlFromUri trustUri)
        "trust.txt-draft00" ⟨stripWwwFirst (urlHostname tabUrl), "member"⟩ := by
  simp only [lookupTrustUri, hdl]
  rw [if_pos hdom]
  simp only [hsoc, hmem, if_true]

/-- Witness for claim C1: a manifest whose member entry contains the
page domain yields the member Account in a cross-domain lookup. -/
theorem lookup_member_branch_witness :
    lookupTrustUri emptyReg (.ok "member=sub.example.org") none
        "https://sub.example.org/page" "trust://acme.example!" =
      .account "sub.example.org" "https://acme.example/.well-known/trust.txt"
        "trust.txt-draft00" ⟨"sub.example.org", "member"⟩ := by
  have h := lookup_member_branch emptyReg (.ok "member=sub.example.org") none
    "https://sub.example.org/page" "trust://acme.example!"
    (parseTrustTxt "member=sub.example.org") rfl (by decide) (by decide) (by decide)
  exact h.trans (by decide)

/-- Counterexample for claim C1 as stated: scenario E of the spec, a
manifest line member equal to example.org and page URL on
sub.example.org, returns notFound, since the entry text example.org
does not contain the page domain sub.example.org. -/
theorem lookup_scenarioE_counterexample :
    lookupTrustUri emptyReg (.ok "member=example.org") none
        "https://sub.example.org/page" "trust://acme.example!" =
      .notFound "trust://acme.example!" := by decide

/-- Claim C2 (amended): in the same-domain branch the result is always
a Multiple whose list is the pre-seeded sentinel list when the
delegated-validator call failed or returned no entries, and is the
returned entries verbatim when the response is nonempty. -/
theorem lookup_sameDomain_multiple
    (reg : PlatformRegistry) (fo : Except String String) (vo : Option (List ValEntry))
    (tabUrl trustUri : String) (ttf : TrustTxtFile)
    (hdl : downloadTrustTxt fo trustUri = .ok ttf)
    (hdom : stripWwwFirst (urlHostname tabUrl) = urlHostname (getUrlFromUri trustUri)) :
    lookupTrustUri reg fo vo tabUrl trustUri =
      .multiple (match vo with
                 | none => [sentinelEntry]
                 | some [] => [sentinelEntry]
                 | some (e :: es) => e :: es) := by
  simp only [lookupTrustUri, hdl]
  rw [if_neg (fun hne => hne hdom)]
  cases vo with
  | none => rfl
  | some es =>
    cases es with
    | nil => rfl
    | cons e es =>
      simp only [Option.getD_some]
      rw [runValidatorLoop_seeded]

/-- Witness for claim C2: a same-domain lookup with a one-entry
validator response returns that entry verbatim. -/
theorem lookup_sameDomain_multiple_witness :
    lookupTrustUri emptyReg (.ok "") (some [⟨"found", "acme.example", "ok"⟩])
        "https://acme.example/" "trust://acme.example!" =
      .multiple [⟨"found", "acme.example", "ok"⟩] := by
  have h := lookup_sameDomain_multiple emptyReg (.ok "")
    (some [⟨"found", "acme.example", "ok"⟩]) "https://acme.example/" "trust://acme.example!"
    (parseTrustTxt "") rfl (by decide)
  exact h.trans (by decide)

/-- Counterexample for claim C2 as stated: when the delegated-validator
call never completes the returned Multiple list is the single sentinel
entry, not the empty list. -/
theorem lookup_validatorFailure_counterexample :
    lookupTrustUri emptyReg (.ok "") none "https://acme.example/" "trust://acme.example!" =
      .multiple [sentinelEntry]
    ∧ lookupTrustUri emptyReg (.ok "") none "https://acme.example/" "trust://acme.example!" ≠
      .multiple [] := by decide

/-- Claim C10: every multiple result carries a nonempty list, and when
the validator failed or returned an empty array the list is exactly the
single sentinel entry. -/
theorem lookup_multiple_nonempty
    (reg : PlatformRegistry) (fo : Except String String) (vo : Option (List ValEntry))
    (tabUrl trustUri : String) (l : List ValEntry)
    (h : lookupTrustUri reg fo vo tabUrl trustUri = .multiple l) :
    l ≠ [] ∧ ((vo = none ∨ vo = some []) → l = [sentinelEntry]) := by
  unfold lookupTrustUri at h
  cases hdl : downloadTrustTxt fo trustUri with
  | error msg => rw [hdl] at h; exact absurd h (by simp)
  | ok ttf =>
    rw [hdl] at h
    simp only at h
    by_cases hdom : stripWwwFirst (urlHostname tabUrl) ≠ urlHostname (getUrlFromUri trustUri)
    · rw [if_pos hdom] at h
      cases hfind : ttf.social.find? (socialMatches reg (getBaseURL tabUrl)) with
      | some m => rw [hfind] at h; exact absurd h (by simp)
      | none =>
        rw [hfind] at h
        by_cases hmem : ttf.member.any
            (fun m => chContains m.data (stripWwwFirst (urlHostname tabUrl)).data) = true
        · rw [if_pos hmem] at h; exact absurd h (by simp)
        · rw [if_neg hmem] at h; exact absurd h (by simp)
    · rw [if_neg hdom] at h
      have hl : l = runValidatorLoop [sentinelEntry] (vo.getD []) := by
        have := h
        injection this with h2
        exact h2.symm
      cases vo with
      | none =>
        rw [hl]
        exact ⟨by decide, fun _ => by rfl⟩
      | some es =>
        cases es with
        | nil => rw [hl]; exact ⟨by decide, fun _ => by rfl⟩
        | cons e es =>
          rw [hl]
          simp only [Option.getD_some]
          rw [runValidatorLoop_seeded]
          refine ⟨by simp, ?_⟩
          rintro (hc | hc) <;> exact absurd hc (by simp)

/-- Witness for claim C10: a failed validator call in the same-domain
branch yields the single sentinel entry. -/
theorem lookup_multiple_nonempty_witness :
    ([sentinelEntry] : List ValEntry) ≠ [] ∧
      ((none : Option (List ValEntry)) = none ∨ (none : Option (List ValEntry)) = some []
        → [sentinelEntry] = [sentinelEntry]) :=
  lookup_multiple_nonempty emptyReg (.ok "") none "https://acme.example/"
    "trust://acme.example!" [sentinelEntry] (by decide)

/-- Claim C4 (amended): after a successful manifest download, the
same-domain delegated-validator branch is taken exactly when the page
hostname with the first occurrence of the substring www. removed equals
the hostname of the resolved manifest URL, which is never stripped; the
removal is of the first occurrence anywhere, not only a leading one. -/
theorem lookup_branch_selection
    (reg : PlatformRegistry) (fo : Except String String) (vo : Option (List ValEntry))
    (tabUrl trustUri : String) (ttf : TrustTxtFile)
    (hdl : downloadTrustTxt fo trustUri = .ok ttf) :
    isMultiple (lookupTrustUri reg fo vo tabUrl trustUri) =
      (stripWwwFirst (urlHostname tabUrl) == urlHostname (getUrlFromUri trustUri)) := by
  simp only [lookupTrustUri, hdl]
  by_cases hdom : stripWwwFirst (urlHostname tabUrl) = urlHostname (getUrlFromUri trustUri)
  · rw [if_neg (fun hne => hne hdom)]
    simp [isMultiple, hdom]
  · rw [if_pos hdom]
    have hb : (stripWwwFirst (urlHostname tabUrl) ==
        urlHostname (getUrlFromUri trustUri)) = false := by
      exact beq_false_of_ne hdom
    rw [hb]
    cases hfind : ttf.social.find? (socialMatches reg (getBaseURL tabUrl)) with
    | some m => simp [isMultiple]
    | none =>
      by_cases hmem : ttf.member.any
          (fun m => chContains m.data (stripWwwFirst (urlHostname tabUrl)).data) = true
      · simp [hmem, isMultiple]
      · simp only [Bool.not_eq_true] at hmem
        simp [hmem, isMultiple]

/-- Witness for claim C4: with a leading www. on the page hostname and
an otherwise equal manifest hostname the validator branch is taken. -/
theorem lookup_branch_selection_witness :
    isMultiple (lookupTrustUri emptyReg (.ok "") none "https://www.acme.example/x"
        "trust://acme.example!") =
      (stripWwwFirst (urlHostname "https://www.acme.example/x") ==
        urlHostname (getUrlFromUri "trust://acme.example!")) :=
  lookup_branch_selection emptyReg (.ok "") none "https://www.acme.example/x"
    "trust://acme.example!" (parseTrustTxt "") rfl

/-- Counterexample for claim C4 as stated: for the page hostname
sub.www.acme.example the www. is not leading, so by the claim no strip
happens and the branch should be cross-domain, yet the code removes the
inner www., finds the domains equal and takes the delegated-validator
branch. -/
theorem lookup_wwwStrip_counterexample :
    stripLeadingWwwSpec "sub.www.acme.example" = "sub.www.acme.example"
    ∧ stripLeadingWwwSpec "sub.www.acme.example" ≠ "sub.acme.example"
    ∧ lookupTrustUri emptyReg (.ok "") none "https://sub.www.acme.example/x"
        "trust://sub.acme.example!" = .multiple [sentinelEntry] := by decide

/-- Claim C8: in the cross-domain branch a social entry owned by a known
platform that accepts the page URL is compared by case-insensitively
canonicalized account handles, an entry of an unrecognized platform is
compared by exact base-URL equality, and the first matching social
entry in manifest order determines the returned Account. -/
theorem lookup_social_match
    (reg : PlatformRegistry) (fo : Except String String) (vo : Option (List ValEntry))
    (tabUrl trustUri : String) (ttf : TrustTxtFile)
    (hdl : downloadTrustTxt fo trustUri = .ok ttf)
    (hdom : stripWwwFirst (urlHostname tabUrl) ≠ urlHostname (getUrlFromUri trustUri))
    (i : Nat) (hi : i < ttf.social.length)
    (hmatch : socialMatches reg (getBaseURL tabUrl) (ttf.social.get ⟨i, hi⟩) = true)
    (hfirst : ∀ j (hj : j < i),
      socialMatches reg (getBaseURL tabUrl) (ttf.social.get ⟨j, Nat.lt_trans hj hi⟩) = false) :
    (∀ (a : String) (p : Platform),
        reg.isSupportedAccountUrl a = true →
        reg.getPlatformFromAccountUrl a = some p →
        p.isValidAccountUrl (getBaseURL tabUrl) = true →
        socialMatches reg (getBaseURL tabUrl) a =
          (jsLower (p.canonicalizeAccountUrl (getBaseURL tabUrl)).account ==
            jsLower (p.canonicalizeAccountUrl a).account))
    ∧ (∀ a : String, reg.isSupportedAccountUrl a = false →
        socialMatches reg (getBaseURL tabUrl) a = (getBaseURL tabUrl == getBaseURL a))
    ∧ lookupTrustUri reg fo vo tabUrl trustUri =
        (let m := ttf.social.get ⟨i, hi⟩
         let platform := match reg.getPlatformFromAccountUrl m with
                         | some p => p.DisplayName
                         | none => ""
         let account := if platform ≠ "" then
             ((reg.getPlatform platform).canonicalizeAccountUrl m).account
           else m
         LookupResult.account (urlHostname (getUrlFromUri trustUri))
           (urlHostname (getUrlFromUri trustUri)) "trust.txt-draft00" ⟨account, platform⟩) := by
  refine ⟨?_, ?_, ?_⟩
  · intro a p hs hg hv
    simp [socialMatches, hs, hg, hv]
  · intro a hs
    simp [socialMatches, hs]
  · simp only [lookupTrustUri, hdl]
    rw [if_pos hdom]
    rw [find?_first (socialMatches reg (getBaseURL tabUrl)) ttf.social i hi hmatch hfirst]

/-- Witness for claim C8: a two-entry manifest where only the second
social entry, a known-platform account differing from the page URL only
in handle case and query string, matches; the result is built from that
second entry. -/
theorem lookup_social_match_witness :
    socialMatches testReg (getBaseURL "https://twitter.com/Acme?ref=1")
        "https://twitter.com/ACME" =
      (jsLower ((twitterPlatform.canonicalizeAccountUrl
          (getBaseURL "https://twitter.com/Acme?ref=1")).account) ==
        jsLower ((twitterPlatform.canonicalizeAccountUrl "https://twitter.com/ACME").account))
    ∧ socialMatches testReg (getBaseURL "https://twitter.com/Acme?ref=1")
        "https://other.example/x" =
      (getBaseURL "https://twitter.com/Acme?ref=1" == getBaseURL "https://other.example/x")
    ∧ lookupTrustUri testReg
        (.ok "social=https://other.example/x\nsocial=https://twitter.com/ACME") none
        "https://twitter.com/Acme?ref=1" "trust://acme.example!" =
      .account "acme.example" "acme.example" "trust.txt-draft00" ⟨"ACME", "Twitter"⟩ := by
  have h := lookup_social_match testReg
    (.ok "social=https://other.example/x\nsocial=https://twitter.com/ACME") none
    "https://twitter.com/Acme?ref=1" "trust://acme.example!"
    (parseTrustTxt "social=https://other.example/x\nsocial=https://twitter.com/ACME")
    rfl (by decide) 1 (by decide) (by decide) (by decide)
  exact ⟨h.1 "https://twitter.com/ACME" twitterPlatform (by decide) rfl (by decide),
    h.2.1 "https://other.example/x" (by decide),
    h.2.2.trans (by decide)⟩

/-- A list is a prefix of itself followed by anything, at the Bool
level. -/
theorem isPrefixOf_append_self (a b : List Char) : a.isPrefixOf (a ++ b) = true := by
  induction a with
  | nil => simp [List.isPrefixOf]
  | cons x xs ih => simp [List.isPrefixOf, ih]

/-- Rewriting a terminated Trust URI without trailing slash: the scheme
is replaced, the terminator stripped, and the well-known path appended
after the retained remainder. -/
theorem getUrlFromUriL_wellKnown (t : List Char) (h1 : t ≠ []) (h2 : t.getLast? ≠ some '/') :
    getUrlFromUriL ("trust://".data ++ t ++ ['!']) =
      "https://".data ++ t ++ "/.well-known/trust.txt".data := by
  unfold getUrlFromUriL
  rw [List.append_assoc]
  rw [isPrefixOf_append_self]
  simp only [if_true]
  rw [show (8 : Nat) = ("trust://".data).length by decide, List.drop_left]
  rw [← List.append_assoc]
  unfold chStripLast
  rw [List.getLast?_concat, if_pos rfl, List.dropLast_concat]
  rw [if_neg (by rw [List.getLast?_append_of_ne_nil _ h1]; exact h2)]

/-- Rewriting a terminated Trust URI with a trailing slash before the
terminator: both the terminator and the slash are stripped. -/
theorem getUrlFromUriL_wellKnown_slash (t : List Char) :
    getUrlFromUriL ("trust://".data ++ (t ++ ['/']) ++ ['!']) =
      "https://".data ++ t ++ "/.well-known/trust.txt".data := by
  unfold getUrlFromUriL
  rw [List.append_assoc]
  rw [isPrefixOf_append_self]
  simp only [if_true]
  rw [show (8 : Nat) = ("trust://".data).length by decide, List.drop_left]
  rw [← List.append_assoc]
  unfold chStripLast
  rw [List.getLast?_concat, if_pos rfl, List.dropLast_concat]
  rw [← List.append_assoc]
  rw [List.getLast?_concat, if_pos rfl, List.dropLast_concat]

/-- Claim C3 (amended): a Trust URI of the form trust colon slash slash
domain bang resolves to the https well-known URL of that domain, with
the terminator and one trailing slash stripped; a path before the
terminator is retained, not removed. -/
theorem getUrlFromUri_wellKnown (t : List Char) (h1 : t ≠ []) (h2 : t.getLast? ≠ some '/') :
    getUrlFromUri ⟨"trust://".data ++ t ++ ['!']⟩ =
      ⟨"https://".data ++ t ++ "/.well-known/trust.txt".data⟩
    ∧ getUrlFromUri ⟨"trust://".data ++ (t ++ ['/']) ++ ['!']⟩ =
      ⟨"https://".data ++ t ++ "/.well-known/trust.txt".data⟩ :=
  ⟨congrArg String.mk (getUrlFromUriL_wellKnown t h1 h2),
   congrArg String.mk (getUrlFromUriL_wellKnown_slash t)⟩

/-- Witness for claim C3 at a concrete domain. -/
theorem getUrlFromUri_wellKnown_witness :
    getUrlFromUri ⟨"trust://".data ++ "example.com".data ++ ['!']⟩ =
      ⟨"https://".data ++ "example.com".data ++ "/.well-known/trust.txt".data⟩
    ∧ getUrlFromUri ⟨"trust://".data ++ ("example.com".data ++ ['/']) ++ ['!']⟩ =
      ⟨"https://".data ++ "example.com".data ++ "/.well-known/trust.txt".data⟩ :=
  getUrlFromUri_wellKnown "example.com".data (by decide) (by decide)

/-- Counterexample for claim C3 as stated: a Trust URI carrying a path
keeps the path in the manifest URL instead of resolving to the bare
well-known URL of the domain. -/
theorem getUrlFromUri_path_counterexample :
    getUrlFromUri "trust://example.com/path!" =
      "https://example.com/path/.well-known/trust.txt"
    ∧ getUrlFromUri "trust://example.com/path!" ≠
      "https://example.com/.well-known/trust.txt" := by decide
